import Mathlib

set_option maxHeartbeats 1000000

/-!
Shallow embedding of `src/ray_bundle.py` (the `tracer` repository).

The source stores each bundle field as a numpy array: `_vertices` and
`_direct` are 2D arrays of shape 3-by-n (each column one ray), `_energy`
is a 1D array of length n.  We model a 2D array as a list of rows
(`Mat`), so that numpy's `shape`, `hstack` and broadcasting have direct
counterparts, and a Python attribute that may be unset as an `Option`
field.  A Python method that can raise becomes a function into
`Except RBError`; the spec's error taxonomy names the two errors the
class can produce: `UninitializedField` (attribute read before its
setter ran) and `DimensionMismatch` (setter given an array whose ray
count disagrees with the vertex count).
-/

namespace Tracer

/-- A 2D array as numpy lays it out: a list of rows.  A 3-by-n array is
three rows of length n. -/
abbrev Mat (α : Type) := List (List α)

/-- numpy `shape[0]`: number of rows. -/
def nrows {α : Type} (m : Mat α) : Nat := m.length

/-- numpy `shape[1]`: number of columns (length of the first row; for the
rectangular arrays numpy holds this is the length of every row). -/
def ncols {α : Type} (m : Mat α) : Nat := (m.headD []).length

/-- The shape of a 2D array, as the pair numpy reports. -/
def shape2 {α : Type} (m : Mat α) : Nat × Nat := (nrows m, ncols m)

/-- Rectangularity: every row has the common column count.  Every genuine
numpy 2D array satisfies this. -/
def Rect {α : Type} (m : Mat α) : Prop := ∀ r ∈ m, r.length = ncols m

instance {α : Type} [DecidableEq α] (m : Mat α) : Decidable (Rect m) := by
  unfold Rect; infer_instance

/-- numpy `hstack` on two 2D arrays: append the rows pairwise (columns of
the first followed by columns of the second). -/
def hstack {α : Type} (a b : Mat α) : Mat α := List.zipWith (fun r s => r ++ s) a b

/-- Column `i` of a 2D array: the entry of each row at position `i`
(`none` past a row's end). -/
def col {α : Type} (m : Mat α) (i : Nat) : List (Option α) := m.map (fun r => r[i]?)

/-- The errors the bundle API can signal, per the spec's taxonomy
(`AttributeError` on an unset Python attribute models as
`UninitializedField`; the setters' `ValueError` as `DimensionMismatch`). -/
inductive RBError where
  | UninitializedField : RBError
  | DimensionMismatch : RBError
deriving DecidableEq

/-- The `RayBundle` class: three private attributes, each absent until
its setter runs. -/
structure RayBundle (α : Type) where
  _vertices : Option (Mat α) := none
  _direct : Option (Mat α) := none
  _energy : Option (List α) := none
deriving DecidableEq

namespace RayBundle

/-- `set_vertices`: stores the starting points and thereby the number of
rays; no validation. -/
def set_vertices {α : Type} (b : RayBundle α) (vert : Mat α) : RayBundle α :=
  { b with _vertices := some vert }

/-- `get_vertices`: reads `_vertices`, failing when never set. -/
def get_vertices {α : Type} (b : RayBundle α) : Except RBError (Mat α) :=
  match b._vertices with
  | some v => Except.ok v
  | none => Except.error RBError.UninitializedField

/-- `get_num_rays`: `self._vertices.shape[1]`. -/
def get_num_rays {α : Type} (b : RayBundle α) : Except RBError Nat := do
  let v ← get_vertices b
  return ncols v

/-- `set_directions`: rejects an array not shaped `(3, n)` where `n` is
the current ray count. -/
def set_directions {α : Type} (b : RayBundle α) (directions : Mat α) :
    Except RBError (RayBundle α) := do
  let n ← get_num_rays b
  if shape2 directions = (3, n) then
    return { b with _direct := some directions }
  else
    throw RBError.DimensionMismatch

/-- `get_directions`: reads `_direct`, failing when never set. -/
def get_directions {α : Type} (b : RayBundle α) : Except RBError (Mat α) :=
  match b._direct with
  | some d => Except.ok d
  | none => Except.error RBError.UninitializedField

/-- `set_energy`: rejects a 1D array whose shape is not `(n,)`. -/
def set_energy {α : Type} (b : RayBundle α) (energy : List α) :
    Except RBError (RayBundle α) := do
  let n ← get_num_rays b
  if energy.length = n then
    return { b with _energy := some energy }
  else
    throw RBError.DimensionMismatch

/-- `get_energy`: reads `_energy`, failing when never set. -/
def get_energy {α : Type} (b : RayBundle α) : Except RBError (List α) :=
  match b._energy with
  | some e => Except.ok e
  | none => Except.error RBError.UninitializedField

/-- `__add__`: merge two bundles into a fresh one, the rays of `b`
followed by the rays of `added`; `hstack` on the 2D fields, 1D
concatenation on the energies. -/
def add {α : Type} (b added : RayBundle α) : Except RBError (RayBundle α) := do
  let v1 ← get_vertices b
  let v2 ← get_vertices added
  let newbund := set_vertices {} (hstack v1 v2)
  let d1 ← get_directions b
  let d2 ← get_directions added
  let newbund ← set_directions newbund (hstack d1 d2)
  let e1 ← get_energy b
  let e2 ← get_energy added
  let newbund ← set_energy newbund (e1 ++ e2)
  return newbund

/-- `empty_bund`: the factory for the bundle with zero rays in all three
fields (`N.array([[],[],[]])` for the 2D fields, `N.array([])` for the
energies). -/
def empty_bund {α : Type} : Except RBError (RayBundle α) := do
  let empty_array : Mat α := [[], [], []]
  let e1 := set_vertices {} empty_array
  let e2 ← set_directions e1 empty_array
  let e3 ← set_energy e2 []
  return e3

end RayBundle

/-! Helper lemmas about the bundle operations. -/

/-- Evaluating `__add__` when every field of both operands is set and the
shapes let the inner setters pass. -/
theorem RayBundle.add_eq {α : Type} (A B : RayBundle α) (va vb da db : Mat α)
    (ea eb : List α)
    (hva : A._vertices = some va) (hvb : B._vertices = some vb)
    (hda : A._direct = some da) (hdb : B._direct = some db)
    (hea : A._energy = some ea) (heb : B._energy = some eb)
    (hshape : shape2 (hstack da db) = (3, ncols (hstack va vb)))
    (hlen : (ea ++ eb).length = ncols (hstack va vb)) :
    RayBundle.add A B =
      Except.ok ⟨some (hstack va vb), some (hstack da db), some (ea ++ eb)⟩ := by
  simp [RayBundle.add, RayBundle.get_vertices, RayBundle.get_directions,
    RayBundle.get_energy, RayBundle.set_vertices, RayBundle.set_directions,
    RayBundle.set_energy, RayBundle.get_num_rays, hva, hvb, hda, hdb, hea, heb,
    bind, Except.bind, pure, Except.pure, hshape]
  simp only [List.length_append] at hlen
  simp [hlen]

/-- C1: for two bundles with all three fields set and mutually consistent
3-by-n shapes, `__add__` returns a new bundle whose ray count is the sum
of the two counts, whose columns below `A`'s count are `A`'s columns, and
whose columns from there on are `B`'s columns shifted by `A`'s count, in
all three arrays. -/
theorem C1_concat_aligned {α : Type} (A B : RayBundle α)
    (va vb da db : Mat α) (ea eb : List α)
    (hva : A._vertices = some va) (hvb : B._vertices = some vb)
    (hda : A._direct = some da) (hdb : B._direct = some db)
    (hea : A._energy = some ea) (heb : B._energy = some eb)
    (hva3 : nrows va = 3) (hvb3 : nrows vb = 3)
    (hda3 : nrows da = 3) (hdb3 : nrows db = 3)
    (hvaR : Rect va) (hdaR : Rect da)
    (hdan : ncols da = ncols va) (hdbn : ncols db = ncols vb)
    (hean : ea.length = ncols va) (hebn : eb.length = ncols vb) :
    ∃ C, RayBundle.add A B = Except.ok C ∧
      RayBundle.get_num_rays C = Except.ok (ncols va + ncols vb) ∧
      C._vertices = some (hstack va vb) ∧
      C._direct = some (hstack da db) ∧
      C._energy = some (ea ++ eb) ∧
      (∀ i, i < ncols va →
        col (hstack va vb) i = col va i ∧
        col (hstack da db) i = col da i ∧
        (ea ++ eb)[i]? = ea[i]?) ∧
      (∀ i, ncols va ≤ i → i < ncols va + ncols vb →
        col (hstack va vb) i = col vb (i - ncols va) ∧
        col (hstack da db) i = col db (i - ncols va) ∧
        (ea ++ eb)[i]? = eb[i - ncols va]?) := by
  obtain ⟨a0, a1, a2, rfl⟩ := List.length_eq_three.mp hva3
  obtain ⟨b0, b1, b2, rfl⟩ := List.length_eq_three.mp hvb3
  obtain ⟨c0, c1, c2, rfl⟩ := List.length_eq_three.mp hda3
  obtain ⟨f0, f1, f2, rfl⟩ := List.length_eq_three.mp hdb3
  have ha1 : a1.length = a0.length := by simpa [ncols] using hvaR a1 (by simp)
  have ha2 : a2.length = a0.length := by simpa [ncols] using hvaR a2 (by simp)
  have hc1 : c1.length = c0.length := by simpa [ncols] using hdaR c1 (by simp)
  have hc2 : c2.length = c0.length := by simpa [ncols] using hdaR c2 (by simp)
  have hc0 : c0.length = a0.length := by simpa [ncols] using hdan
  have hf0 : f0.length = b0.length := by simpa [ncols] using hdbn
  have hea0 : ea.length = a0.length := by simpa [ncols] using hean
  have heb0 : eb.length = b0.length := by simpa [ncols] using hebn
  refine ⟨_, RayBundle.add_eq A B _ _ _ _ _ _ hva hvb hda hdb hea heb
      (by simp [shape2, nrows, ncols, hstack, hc0, hf0])
      (by simp [ncols, hstack, hea0, heb0]), ?_, rfl, rfl, rfl, ?_, ?_⟩
  · simp [RayBundle.get_num_rays, RayBundle.get_vertices, ncols, hstack,
      bind, Except.bind, pure, Except.pure]
  · intro i hi
    simp only [ncols, List.headD] at hi
    refine ⟨?_, ?_, ?_⟩
    · simp [col, hstack, List.getElem?_append, hi, ha1, ha2]
    · simp [col, hstack, List.getElem?_append, hc0, hc1, hc2, hi]
    · simp [List.getElem?_append, hea0, hi]
  · intro i hge hlt
    simp only [ncols, List.headD] at hge hlt
    have hni : ¬ i < a0.length := Nat.not_lt.mpr hge
    refine ⟨?_, ?_, ?_⟩
    · simp [col, hstack, ncols, List.getElem?_append, ha1, ha2, hni]
    · simp [col, hstack, ncols, List.getElem?_append, hc0, hc1, hc2, hni]
    · simp [List.getElem?_append, ncols, hea0, hni]

/-- Witness for C1 at two concrete one-ray bundles over `ℕ`. -/
theorem C1_concat_aligned_witness :
    ∃ C, RayBundle.add
        (⟨some [[1], [2], [3]], some [[4], [5], [6]], some [7]⟩ : RayBundle ℕ)
        ⟨some [[10], [20], [30]], some [[40], [50], [60]], some [70]⟩ = Except.ok C ∧
      RayBundle.get_num_rays C =
        Except.ok (ncols [[1], [2], [3]] + ncols [[10], [20], [30]]) ∧
      C._vertices = some (hstack [[1], [2], [3]] [[10], [20], [30]]) ∧
      C._direct = some (hstack [[4], [5], [6]] [[40], [50], [60]]) ∧
      C._energy = some ([7] ++ [70]) ∧
      (∀ i, i < ncols [[1], [2], [3]] →
        col (hstack [[1], [2], [3]] [[10], [20], [30]]) i = col [[1], [2], [3]] i ∧
        col (hstack [[4], [5], [6]] [[40], [50], [60]]) i = col [[4], [5], [6]] i ∧
        ([7] ++ [70])[i]? = [7][i]?) ∧
      (∀ i, ncols [[1], [2], [3]] ≤ i →
          i < ncols [[1], [2], [3]] + ncols [[10], [20], [30]] →
        col (hstack [[1], [2], [3]] [[10], [20], [30]]) i =
          col [[10], [20], [30]] (i - ncols [[1], [2], [3]]) ∧
        col (hstack [[4], [5], [6]] [[40], [50], [60]]) i =
          col [[40], [50], [60]] (i - ncols [[1], [2], [3]]) ∧
        ([7] ++ [70])[i]? = [70][i - ncols [[1], [2], [3]]]?) :=
  C1_concat_aligned _ _ _ _ _ _ _ _ rfl rfl rfl rfl rfl rfl (by decide) (by decide)
    (by decide) (by decide) (by decide) (by decide) (by decide) (by decide)
    (by decide) (by decide)

/-- C2: `empty_bund` builds the bundle whose three fields are present with
zero rays, and concatenating it on the left of any populated 3-by-n
bundle `A` gives back `A` itself. -/
theorem C2_empty_left_identity {α : Type} (A : RayBundle α) (va da : Mat α)
    (ea : List α)
    (hva : A._vertices = some va) (hda : A._direct = some da)
    (hea : A._energy = some ea)
    (hva3 : nrows va = 3) (hda3 : nrows da = 3)
    (hdan : ncols da = ncols va) (hean : ea.length = ncols va) :
    RayBundle.empty_bund =
      Except.ok (⟨some [[], [], []], some [[], [], []], some []⟩ : RayBundle α) ∧
    RayBundle.add ⟨some [[], [], []], some [[], [], []], some []⟩ A = Except.ok A := by
  obtain ⟨a0, a1, a2, rfl⟩ := List.length_eq_three.mp hva3
  obtain ⟨c0, c1, c2, rfl⟩ := List.length_eq_three.mp hda3
  have hc0 : c0.length = a0.length := by simpa [ncols] using hdan
  have hea0 : ea.length = a0.length := by simpa [ncols] using hean
  refine ⟨rfl, ?_⟩
  rw [RayBundle.add_eq _ A [[], [], []] [a0, a1, a2] [[], [], []] [c0, c1, c2] [] ea
      rfl hva rfl hda rfl hea (by simp [shape2, nrows, ncols, hstack, hc0])
      (by simp [ncols, hstack, hea0])]
  have hA : A = ⟨some [a0, a1, a2], some [c0, c1, c2], some ea⟩ := by
    obtain ⟨bv, bd, be⟩ := A
    simp_all
  rw [hA]
  simp [hstack]

/-- Witness for C2 at a concrete one-ray bundle over `ℕ`. -/
theorem C2_empty_left_identity_witness :
    RayBundle.empty_bund =
      Except.ok (⟨some [[], [], []], some [[], [], []], some []⟩ : RayBundle ℕ) ∧
    RayBundle.add ⟨some [[], [], []], some [[], [], []], some []⟩
      (⟨some [[1], [2], [3]], some [[4], [5], [6]], some [7]⟩ : RayBundle ℕ) =
      Except.ok ⟨some [[1], [2], [3]], some [[4], [5], [6]], some [7]⟩ :=
  C2_empty_left_identity _ _ _ _ rfl rfl rfl (by decide) (by decide) (by decide)
    (by decide)

/-- C3: with vertices set to an n-column array, `set_directions` rejects
exactly the arrays not shaped 3-by-n and `set_energy` exactly the 1D
arrays not of length n, with `DimensionMismatch`; a matching argument is
stored and read back unchanged by the corresponding getter. -/
theorem C3_setter_shape_check {α : Type} (b : RayBundle α) (va : Mat α)
    (hv : b._vertices = some va) (d : Mat α) (e : List α) :
    (Rect d → shape2 d ≠ (3, ncols va) →
      RayBundle.set_directions b d = Except.error RBError.DimensionMismatch) ∧
    (Rect d → shape2 d = (3, ncols va) →
      ∃ b2, RayBundle.set_directions b d = Except.ok b2 ∧
        RayBundle.get_directions b2 = Except.ok d) ∧
    (e.length ≠ ncols va →
      RayBundle.set_energy b e = Except.error RBError.DimensionMismatch) ∧
    (e.length = ncols va →
      ∃ b2, RayBundle.set_energy b e = Except.ok b2 ∧
        RayBundle.get_energy b2 = Except.ok e) := by
  refine ⟨fun _ hne => ?_, fun _ heq => ?_, fun hne => ?_, fun heq => ?_⟩
  · simp [RayBundle.set_directions, RayBundle.get_num_rays, RayBundle.get_vertices,
      hv, hne, bind, Except.bind, pure, Except.pure, throw, throwThe,
      MonadExceptOf.throw]
  · refine ⟨{ b with _direct := some d }, ?_, by simp [RayBundle.get_directions]⟩
    simp [RayBundle.set_directions, RayBundle.get_num_rays, RayBundle.get_vertices,
      hv, heq, bind, Except.bind, pure, Except.pure]
  · simp [RayBundle.set_energy, RayBundle.get_num_rays, RayBundle.get_vertices,
      hv, hne, bind, Except.bind, pure, Except.pure, throw, throwThe,
      MonadExceptOf.throw]
  · refine ⟨{ b with _energy := some e }, ?_, by simp [RayBundle.get_energy]⟩
    simp [RayBundle.set_energy, RayBundle.get_num_rays, RayBundle.get_vertices,
      hv, heq, bind, Except.bind, pure, Except.pure]

/-- Witness for C3 at a concrete one-ray bundle over `ℕ`, with a matching
directions array and a mismatched energy array. -/
theorem C3_setter_shape_check_witness :
    (Rect [[1], [2], [3]] → shape2 [[1], [2], [3]] ≠ (3, ncols [[5], [6], [7]]) →
      RayBundle.set_directions (⟨some [[5], [6], [7]], none, none⟩ : RayBundle ℕ)
        [[1], [2], [3]] = Except.error RBError.DimensionMismatch) ∧
    (Rect [[1], [2], [3]] → shape2 [[1], [2], [3]] = (3, ncols [[5], [6], [7]]) →
      ∃ b2, RayBundle.set_directions (⟨some [[5], [6], [7]], none, none⟩ : RayBundle ℕ)
          [[1], [2], [3]] = Except.ok b2 ∧
        RayBundle.get_directions b2 = Except.ok [[1], [2], [3]]) ∧
    ([4, 5].length ≠ ncols [[5], [6], [7]] →
      RayBundle.set_energy (⟨some [[5], [6], [7]], none, none⟩ : RayBundle ℕ) [4, 5] =
        Except.error RBError.DimensionMismatch) ∧
    ([4, 5].length = ncols [[5], [6], [7]] →
      ∃ b2, RayBundle.set_energy (⟨some [[5], [6], [7]], none, none⟩ : RayBundle ℕ)
          [4, 5] = Except.ok b2 ∧
        RayBundle.get_energy b2 = Except.ok [4, 5]) :=
  C3_setter_shape_check _ _ rfl _ _

/-- C10: on a bundle whose vertices were never set, `set_directions` and
`set_energy` fail before storing anything (the ray count read raises),
and the getters keep failing as before the call. -/
theorem C10_setters_require_vertices {α : Type} (b : RayBundle α)
    (hv : b._vertices = none) (hd : b._direct = none) (he : b._energy = none)
    (d : Mat α) (e : List α) :
    RayBundle.set_directions b d = Except.error RBError.UninitializedField ∧
    RayBundle.set_energy b e = Except.error RBError.UninitializedField ∧
    RayBundle.get_directions b = Except.error RBError.UninitializedField ∧
    RayBundle.get_energy b = Except.error RBError.UninitializedField := by
  simp [RayBundle.set_directions, RayBundle.set_energy, RayBundle.get_num_rays,
    RayBundle.get_vertices, RayBundle.get_directions, RayBundle.get_energy,
    hv, hd, he, bind, Except.bind]

/-- Witness for C10 at the freshly constructed bundle over `ℕ`. -/
theorem C10_setters_require_vertices_witness :
    RayBundle.set_directions (⟨none, none, none⟩ : RayBundle ℕ) [[1], [2], [3]] =
      Except.error RBError.UninitializedField ∧
    RayBundle.set_energy (⟨none, none, none⟩ : RayBundle ℕ) [9] =
      Except.error RBError.UninitializedField ∧
    RayBundle.get_directions (⟨none, none, none⟩ : RayBundle ℕ) =
      Except.error RBError.UninitializedField ∧
    RayBundle.get_energy (⟨none, none, none⟩ : RayBundle ℕ) =
      Except.error RBError.UninitializedField :=
  C10_setters_require_vertices _ rfl rfl rfl _ _

/-!
## The disk-source sampler `solar_disk_bundle`

The sampler's randomness enters through `random.uniform`.  We pass the
drawn values in as parameters: `phis` and `thetas` are the per-ray draws
of the two angular arrays, and `stream k i` is the pair drawn for slot
`i` in the `k`-th pass of the rejection `while` loop.  Claims state the
documented range of `random.uniform(low, high)` as hypotheses on these
parameters where they need it.  The `while` loop itself is modelled with
a fuel bound: `none` means the loop was still running when the fuel ran
out, so every theorem about a returned bundle is conditioned on the loop
having finished, which is exactly what the code's termination-with-
probability-1 gives.
-/

/-- A 3-vector (a numpy 3-array or one column of a 3-by-n array). -/
abbrev Vec3 : Type := ℝ × ℝ × ℝ

/-- Componentwise dot product of two 3-vectors. -/
def dot3 (a b : Vec3) : ℝ := a.1 * b.1 + a.2.1 * b.2.1 + a.2.2 * b.2.2

/-- `N.cross` of two 3-vectors. -/
def cross (a b : Vec3) : Vec3 :=
  (a.2.1 * b.2.2 - a.2.2 * b.2.1, a.2.2 * b.1 - a.1 * b.2.2,
    a.1 * b.2.1 - a.2.1 * b.1)

/-- Componentwise sum of two 3-vectors. -/
def add3 (a b : Vec3) : Vec3 := (a.1 + b.1, a.2.1 + b.2.1, a.2.2 + b.2.2)

/-- Componentwise difference of two 3-vectors. -/
def sub3 (a b : Vec3) : Vec3 := (a.1 - b.1, a.2.1 - b.2.1, a.2.2 - b.2.2)

/-- Scalar multiple of a 3-vector. -/
def smul3 (c : ℝ) (v : Vec3) : Vec3 := (c * v.1, c * v.2.1, c * v.2.2)

/-- Squared euclidean norm of a 3-vector. -/
def sqnorm3 (v : Vec3) : ℝ := dot3 v v

/-- A 3-by-3 matrix given by its rows. -/
structure Mat3 where
  row0 : Vec3
  row1 : Vec3
  row2 : Vec3

/-- `N.dot` of a 3-by-3 matrix with a column 3-vector. -/
def mulVec (m : Mat3) (u : Vec3) : Vec3 :=
  (dot3 m.row0 u, dot3 m.row1 u, dot3 m.row2 u)

/-- Modelled from the spec: `general_axis_rotation` is imported from the
external `spatial_geometry` module, which is not among the sources here.
The spec describes it as a pure rotation primitive, an axis and an angle
mapped to a 3-by-3 rotation operator under the right-hand rule; we take
the standard axis-angle (Rodrigues) operator, with `c = cos ang`,
`s = sin ang`, `v = 1 - c`:
`R = c*I + v*(axis outer axis) + s*(skew axis)`. -/
noncomputable def general_axis_rotation (axis : Vec3) (ang : ℝ) : Mat3 :=
  let c := Real.cos ang
  let s := Real.sin ang
  let v := 1 - c
  ⟨(c + v * axis.1 * axis.1, v * axis.1 * axis.2.1 - s * axis.2.2,
      v * axis.1 * axis.2.2 + s * axis.2.1),
   (v * axis.2.1 * axis.1 + s * axis.2.2, c + v * axis.2.1 * axis.2.1,
      v * axis.2.1 * axis.2.2 - s * axis.1),
   (v * axis.2.2 * axis.1 - s * axis.2.1, v * axis.2.2 * axis.2.1 + s * axis.1,
      c + v * axis.2.2 * axis.2.2)⟩

/-- The in-plane reference axis: `perp = (direction[1], -direction[0], 0)`,
replaced by `(1, 0, 0)` when that is the zero vector (direction parallel
to the z-axis). -/
noncomputable def diskPerp (direction : Vec3) : Vec3 :=
  let perp : Vec3 := (direction.2.1, -direction.1, 0)
  if perp = ((0 : ℝ), (0 : ℝ), (0 : ℝ)) then (1, 0, 0) else perp

/-- One ray's direction: rotate `direction` about `perp` by `theta`, then
rotate the result about `direction` by `phi`. -/
noncomputable def diskDirection (direction perp : Vec3) (theta phi : ℝ) : Vec3 :=
  mulVec (general_axis_rotation direction phi)
    (mulVec (general_axis_rotation perp theta) direction)

/-- The 3-by-`num_rays` directions array the sampler fills column by
column (`directions[:, ray] = dir`). -/
noncomputable def dirsMat (direction perp : Vec3) (thetas phis : List ℝ) (num_rays : ℕ) : Mat ℝ :=
  [(List.range num_rays).map (fun i =>
      (diskDirection direction perp (thetas.getD i 0) (phis.getD i 0)).1),
   (List.range num_rays).map (fun i =>
      (diskDirection direction perp (thetas.getD i 0) (phis.getD i 0)).2.1),
   (List.range num_rays).map (fun i =>
      (diskDirection direction perp (thetas.getD i 0) (phis.getD i 0)).2.2)]

/-- `not_inside` recomputed from the coordinate arrays:
`xs**2 + ys**2 > radius**2`, one flag per ray. -/
noncomputable def notInside (radius : ℝ) (pts : List (ℝ × ℝ)) : List Bool :=
  pts.map (fun p => decide (p.1 ^ 2 + p.2 ^ 2 > radius ^ 2))

/-- The masked re-draw `xs[not_inside] = random.uniform(...)`: the slots
whose flag is set take the fresh draw for their index, the rest keep
their value.  (The code keeps `xs` and `ys` in two arrays updated under
the same mask; we keep them paired.) -/
def resamplePts (samp : ℕ → ℝ × ℝ) : ℕ → List (ℝ × ℝ) → List Bool → List (ℝ × ℝ)
  | _, [], _ => []
  | _, ps, [] => ps
  | i, p :: ps, m :: ms => (if m then samp i else p) :: resamplePts samp (i + 1) ps ms

/-- The rejection `while not_inside.any()` loop, with fuel: re-draw the
flagged slots, recompute the flags from the new coordinates, and stop
once no flag is set.  `none` means the fuel ran out with flags still
set. -/
noncomputable def sampleLoop (radius : ℝ) :
    (ℕ → ℕ → ℝ × ℝ) → ℕ → List (ℝ × ℝ) → List Bool → Option (List (ℝ × ℝ))
  | _, 0, pts, mask => if mask.any id then none else some pts
  | stream, fuel + 1, pts, mask =>
    if mask.any id then
      let pts2 := resamplePts (stream 0) 0 pts mask
      sampleLoop radius (fun k => stream (k + 1)) fuel pts2 (notInside radius pts2)
    else some pts

/-- One vertex: the local disk point `(x, y, 0)` taken through
`rot = vstack((perp, cross(direction, perp), direction))` and translated
by `center`. -/
noncomputable def vertCol (direction perp center : Vec3) (p : ℝ × ℝ) : Vec3 :=
  add3 (mulVec ⟨perp, cross direction perp, direction⟩ (p.1, p.2, 0)) center

/-- The 3-by-n array `N.dot(rot, vertices_local) + center`, one column
per accepted disk point. -/
noncomputable def vertsMat (direction perp center : Vec3) (pts : List (ℝ × ℝ)) : Mat ℝ :=
  [pts.map (fun p => (vertCol direction perp center p).1),
   pts.map (fun p => (vertCol direction perp center p).2.1),
   pts.map (fun p => (vertCol direction perp center p).2.2)]

/-- `solar_disk_bundle`: build the per-ray directions, run the rejection
loop for the disk points (`xs`, `ys` start as `N.empty` garbage that the
all-true initial mask overwrites before any read; we use zeros), embed
the accepted points in the disk's plane, and fill a `RayBundle` through
`set_vertices` then `set_directions`, leaving the energy unset. -/
noncomputable def solar_disk_bundle (num_rays : ℕ) (center direction : Vec3)
    (radius ang_range : ℝ) (phis thetas : List ℝ) (stream : ℕ → ℕ → ℝ × ℝ)
    (fuel : ℕ) : Option (Except RBError (RayBundle ℝ)) :=
  let perp := diskPerp direction
  let directions := dirsMat direction perp thetas phis num_rays
  match sampleLoop radius stream fuel (List.replicate num_rays (0, 0))
      (List.replicate num_rays true) with
  | none => none
  | some pts =>
    some (do
      let rayb := RayBundle.set_vertices {} (vertsMat direction perp center pts)
      let rayb ← RayBundle.set_directions rayb directions
      return rayb)

/-- Column `i` of a 3-row matrix over `ℝ`, as a 3-vector. -/
noncomputable def matCol3 (m : Mat ℝ) (i : ℕ) : Vec3 :=
  ((m.getD 0 []).getD i 0, (m.getD 1 []).getD i 0, (m.getD 2 []).getD i 0)

/-- The component of `w` in the disk's local plane: `w` minus its
component along the (unit) normal `d`. -/
def planeProj (d w : Vec3) : Vec3 := sub3 w (smul3 (dot3 w d) d)

/-! Lemmas about the rejection loop. -/

theorem resamplePts_length (samp : ℕ → ℝ × ℝ) :
    ∀ (i : ℕ) (ps : List (ℝ × ℝ)) (ms : List Bool),
      (resamplePts samp i ps ms).length = ps.length := by
  intro i ps
  induction ps generalizing i with
  | nil => intro ms; cases ms <;> simp [resamplePts]
  | cons p ps ih =>
    intro ms
    cases ms with
    | nil => simp [resamplePts]
    | cons m ms => simp [resamplePts, ih]

theorem notInside_length (radius : ℝ) (pts : List (ℝ × ℝ)) :
    (notInside radius pts).length = pts.length := by
  simp [notInside]

theorem notInside_getD (radius : ℝ) (pts : List (ℝ × ℝ)) (i : ℕ)
    (hi : i < pts.length) :
    (notInside radius pts).getD i true =
      decide ((pts.getD i (0, 0)).1 ^ 2 + (pts.getD i (0, 0)).2 ^ 2 > radius ^ 2) := by
  have h1 : (notInside radius pts)[i]? =
      some (decide ((pts.getD i (0, 0)).1 ^ 2 + (pts.getD i (0, 0)).2 ^ 2 > radius ^ 2)) := by
    rw [notInside, List.getElem?_map, List.getElem?_eq_getElem hi]
    simp [List.getD_eq_getElem?_getD, List.getElem?_eq_getElem hi]
  simp [List.getD_eq_getElem?_getD, h1]

/-- If the rejection loop stops, it stops with every accepted point
inside the disk: the flags were recomputed from the coordinates, and the
loop only stops when none is set. -/
theorem sampleLoop_sound (radius : ℝ) :
    ∀ (fuel : ℕ) (stream : ℕ → ℕ → ℝ × ℝ) (pts : List (ℝ × ℝ)) (mask : List Bool)
      (res : List (ℝ × ℝ)),
      mask.length = pts.length →
      (∀ i, i < pts.length → mask.getD i true = false →
        (pts.getD i (0, 0)).1 ^ 2 + (pts.getD i (0, 0)).2 ^ 2 ≤ radius ^ 2) →
      sampleLoop radius stream fuel pts mask = some res →
      res.length = pts.length ∧
        ∀ i, i < res.length →
          (res.getD i (0, 0)).1 ^ 2 + (res.getD i (0, 0)).2 ^ 2 ≤ radius ^ 2 := by
  intro fuel
  induction fuel with
  | zero =>
    intro stream pts mask res hlen hinv hres
    simp only [sampleLoop] at hres
    by_cases hany : mask.any id
    · simp [hany] at hres
    · simp [hany] at hres
      subst hres
      refine ⟨rfl, fun i hi => hinv i hi ?_⟩
      have hmem : mask.getD i true ∈ mask := by
        have hi2 : i < mask.length := by omega
        rw [List.getD_eq_getElem?_getD, List.getElem?_eq_getElem hi2]
        simpa using List.getElem_mem hi2
      have := List.any_eq_false.mp (Bool.not_eq_true _ ▸ hany) _ hmem
      simpa using this
  | succ fuel ih =>
    intro stream pts mask res hlen hinv hres
    simp only [sampleLoop] at hres
    by_cases hany : mask.any id
    · simp only [hany, if_true] at hres
      have hstep := ih (fun k => stream (k + 1)) (resamplePts (stream 0) 0 pts mask)
        (notInside radius (resamplePts (stream 0) 0 pts mask)) res
        (by rw [notInside_length])
        (by
          intro i hi hflag
          rw [notInside_getD _ _ _ (by simpa [resamplePts_length] using hi)] at hflag
          have := of_decide_eq_false hflag
          linarith [not_lt.mp this])
        hres
      rw [resamplePts_length] at hstep
      exact hstep
    · simp [hany] at hres
      subst hres
      refine ⟨rfl, fun i hi => hinv i hi ?_⟩
      have hi2 : i < mask.length := by omega
      have hmem : mask.getD i true ∈ mask := by
        rw [List.getD_eq_getElem?_getD, List.getElem?_eq_getElem hi2]
        simpa using List.getElem_mem hi2
      have := List.any_eq_false.mp (Bool.not_eq_true _ ▸ hany) _ hmem
      simpa using this

/-- A loop whose flags are already all clear returns its points at any
fuel. -/
theorem sampleLoop_done (radius : ℝ) (stream : ℕ → ℕ → ℝ × ℝ) (fuel : ℕ)
    (pts : List (ℝ × ℝ)) (mask : List Bool) (h : mask.any id = false) :
    sampleLoop radius stream fuel pts mask = some pts := by
  cases fuel <;> simp [sampleLoop, h]

/-- Starting from the sampler's initial state, a finished loop yields
exactly `num_rays` points, all inside the disk. -/
theorem sampleLoop_initial (radius : ℝ) (n : ℕ) (stream : ℕ → ℕ → ℝ × ℝ)
    (fuel : ℕ) (pts : List (ℝ × ℝ))
    (h : sampleLoop radius stream fuel (List.replicate n ((0 : ℝ), (0 : ℝ)))
        (List.replicate n true) = some pts) :
    pts.length = n ∧
      ∀ i, i < pts.length →
        (pts.getD i (0, 0)).1 ^ 2 + (pts.getD i (0, 0)).2 ^ 2 ≤ radius ^ 2 := by
  have hs := sampleLoop_sound radius fuel stream _ _ pts (by simp)
    (by
      intro i hi hflag
      exfalso
      have hi2 : i < n := by simpa using hi
      have : (List.replicate n true).getD i true = true := by
        rw [List.getD_eq_getElem?_getD, List.getElem?_replicate]
        simp [hi2]
      rw [this] at hflag
      cases hflag)
    h
  simpa using hs

/-- Inverting a successful run of the sampler: the loop finished with
some list of accepted points, and the returned bundle is the one built
from them, energy left unset. -/
theorem solar_disk_bundle_ok (num_rays : ℕ) (center direction : Vec3)
    (radius ang_range : ℝ) (phis thetas : List ℝ) (stream : ℕ → ℕ → ℝ × ℝ)
    (fuel : ℕ) (b : RayBundle ℝ)
    (hb : solar_disk_bundle num_rays center direction radius ang_range phis thetas
        stream fuel = some (Except.ok b)) :
    ∃ pts,
      sampleLoop radius stream fuel (List.replicate num_rays (0, 0))
        (List.replicate num_rays true) = some pts ∧
      b = ⟨some (vertsMat direction (diskPerp direction) center pts),
           some (dirsMat direction (diskPerp direction) thetas phis num_rays),
           none⟩ := by
  unfold solar_disk_bundle at hb
  cases hloop : sampleLoop radius stream fuel (List.replicate num_rays (0, 0))
      (List.replicate num_rays true) with
  | none => rw [hloop] at hb; cases hb
  | some pts =>
    rw [hloop] at hb
    refine ⟨pts, rfl, ?_⟩
    by_cases hc : shape2 (dirsMat direction (diskPerp direction) thetas phis num_rays) =
        (3, ncols (vertsMat direction (diskPerp direction) center pts))
    · simp only [RayBundle.set_vertices, RayBundle.set_directions,
        RayBundle.get_num_rays, RayBundle.get_vertices, bind, Except.bind, pure,
        Except.pure, hc, if_true, Option.some.injEq] at hb
      simp at hb
      exact hb.symm
    · simp only [RayBundle.set_vertices, RayBundle.set_directions,
        RayBundle.get_num_rays, RayBundle.get_vertices, bind, Except.bind, pure,
        Except.pure, hc, if_false] at hb
      simp at hb

/-! Reading one column of the arrays the sampler builds. -/

theorem matCol3_vertsMat (direction perp center : Vec3) (pts : List (ℝ × ℝ))
    (i : ℕ) (hi : i < pts.length) :
    matCol3 (vertsMat direction perp center pts) i =
      vertCol direction perp center (pts.getD i (0, 0)) := by
  obtain ⟨q, hq⟩ : ∃ q, pts[i]? = some q := ⟨pts[i], List.getElem?_eq_getElem hi⟩
  have hgd : pts.getD i (0, 0) = q := by
    rw [List.getD_eq_getElem?_getD, hq]
    rfl
  rw [hgd]
  simp [matCol3, vertsMat, List.getD_eq_getElem?_getD, List.getElem?_map, hq]

theorem matCol3_dirsMat (direction perp : Vec3) (thetas phis : List ℝ)
    (num_rays : ℕ) (i : ℕ) (hi : i < num_rays) :
    matCol3 (dirsMat direction perp thetas phis num_rays) i =
      diskDirection direction perp (thetas.getD i 0) (phis.getD i 0) := by
  have he : (List.range num_rays)[i]? = some i := by
    rw [List.getElem?_eq_getElem (by simpa using hi)]
    simp
  simp [matCol3, dirsMat, List.getD_eq_getElem?_getD, List.getElem?_map, he]

theorem ncols_vertsMat (direction perp center : Vec3) (pts : List (ℝ × ℝ)) :
    ncols (vertsMat direction perp center pts) = pts.length := by
  simp [ncols, vertsMat]

theorem ncols_dirsMat (direction perp : Vec3) (thetas phis : List ℝ)
    (num_rays : ℕ) : ncols (dirsMat direction perp thetas phis num_rays) = num_rays := by
  simp [ncols, dirsMat]

/-! The geometry of the plane embedding. -/

/-- With a unit normal, projecting out the normal component subtracts
exactly the square of that component from the squared norm. -/
theorem sqnorm3_planeProj (d w : Vec3) (hd : dot3 d d = 1) :
    sqnorm3 (planeProj d w) = sqnorm3 w - dot3 w d ^ 2 := by
  obtain ⟨d0, d1, d2⟩ := d
  obtain ⟨w0, w1, w2⟩ := w
  simp only [planeProj, sqnorm3, sub3, smul3, dot3] at *
  linear_combination (w0 * d0 + w1 * d1 + w2 * d2) ^ 2 * hd

/-- The core bound: a local disk point `(x, y)` taken through the frame
rows `{perp, direction × perp, direction}` lands, after removing the
normal component, within distance `sqrt (x^2 + y^2)` of the center: the
frame's rows are not unit vectors in general (`perp` has norm
`sqrt (d0^2+d1^2) ≤ 1`), so the map can only shrink in-plane distances,
never grow them. -/
theorem vertCol_plane_bound (direction center : Vec3) (p : ℝ × ℝ)
    (hunit : dot3 direction direction = 1) :
    sqnorm3 (planeProj direction
        (sub3 (vertCol direction (diskPerp direction) center p) center)) ≤
      p.1 ^ 2 + p.2 ^ 2 := by
  obtain ⟨d0, d1, d2⟩ := direction
  obtain ⟨c0, c1, c2⟩ := center
  obtain ⟨x, y⟩ := p
  by_cases hz : ((d1 : ℝ), -d0, (0 : ℝ)) = ((0 : ℝ), (0 : ℝ), (0 : ℝ))
  · have h12 : d1 = 0 ∧ -d0 = 0 := by simpa [Prod.ext_iff] using hz
    have hd0 : d0 = 0 := neg_eq_zero.mp h12.2
    have hd1 : d1 = 0 := h12.1
    subst hd0 hd1
    have hu : (0 : ℝ) * 0 + 0 * 0 + d2 * d2 = 1 := by simpa [dot3] using hunit
    have hperp : diskPerp ((0 : ℝ), (0 : ℝ), d2) = (1, 0, 0) := by simp [diskPerp]
    rw [hperp, sqnorm3_planeProj _ _ hunit]
    simp only [sqnorm3, sub3, dot3, vertCol, add3, mulVec, cross]
    nlinarith [hu, sq_nonneg x, sq_nonneg y, sq_nonneg (d2 * y)]
  · have hu : d0 * d0 + d1 * d1 + d2 * d2 = 1 := by simpa [dot3] using hunit
    have hperp : diskPerp ((d0 : ℝ), d1, d2) = (d1, -d0, 0) := by
      simp only [diskPerp]
      rw [if_neg hz]
    rw [hperp, sqnorm3_planeProj _ _ hunit]
    simp only [sqnorm3, sub3, dot3, vertCol, add3, mulVec, cross]
    nlinarith [hu, sq_nonneg (d2 * d2 * x), sq_nonneg (d2 * d2 * y),
      sq_nonneg (d2 * (d1 * x - d0 * y)),
      sq_nonneg ((d1 * x - d0 * y) * d0 + d2 * (d0 * x + d1 * y) * d1 +
        (d0 * x + d1 * y) * d2),
      sq_nonneg (d1 * x - d0 * y), sq_nonneg (d0 * x + d1 * y),
      sq_nonneg x, sq_nonneg y, sq_nonneg (d2 * x), sq_nonneg (d2 * y)]

/-- Rotating by a zero angle is the identity, and the azimuthal spin
about the (unit) `direction` axis fixes `direction` itself, so a ray with
`theta = 0` keeps the central direction exactly. -/
theorem diskDirection_theta_zero (direction perp : Vec3) (phi : ℝ)
    (hunit : dot3 direction direction = 1) :
    diskDirection direction perp 0 phi = direction := by
  obtain ⟨d0, d1, d2⟩ := direction
  obtain ⟨p0, p1, p2⟩ := perp
  have hu : d0 * d0 + d1 * d1 + d2 * d2 = 1 := by simpa [dot3] using hunit
  simp only [diskDirection, general_axis_rotation, mulVec, dot3, Real.cos_zero,
    Real.sin_zero, Prod.mk.injEq]
  refine ⟨?_, ?_, ?_⟩
  · linear_combination (1 - Real.cos phi) * d0 * hu
  · linear_combination (1 - Real.cos phi) * d1 * hu
  · linear_combination (1 - Real.cos phi) * d2 * hu

/-- A successful finish of the rejection loop with the right count makes
the whole sampler succeed, with the bundle built from the accepted
points. -/
theorem solar_disk_bundle_eq (num_rays : ℕ) (center direction : Vec3)
    (radius ang_range : ℝ) (phis thetas : List ℝ) (stream : ℕ → ℕ → ℝ × ℝ)
    (fuel : ℕ) (pts : List (ℝ × ℝ))
    (hloop : sampleLoop radius stream fuel (List.replicate num_rays (0, 0))
        (List.replicate num_rays true) = some pts)
    (hlen : pts.length = num_rays) :
    solar_disk_bundle num_rays center direction radius ang_range phis thetas stream
        fuel =
      some (Except.ok ⟨some (vertsMat direction (diskPerp direction) center pts),
        some (dirsMat direction (diskPerp direction) thetas phis num_rays),
        none⟩) := by
  have hshape : shape2 (dirsMat direction (diskPerp direction) thetas phis num_rays) =
      (3, ncols (vertsMat direction (diskPerp direction) center pts)) := by
    have h3 : nrows (dirsMat direction (diskPerp direction) thetas phis num_rays) = 3 := by
      simp [nrows, dirsMat]
    rw [shape2, h3, ncols_dirsMat, ncols_vertsMat, hlen]
  simp only [solar_disk_bundle, hloop]
  simp [RayBundle.set_vertices, RayBundle.set_directions, RayBundle.get_num_rays,
    RayBundle.get_vertices, bind, Except.bind, pure, Except.pure, hshape]

/-- One pass of the loop: flags set, re-draw, and the recomputed flags
all clear. -/
theorem sampleLoop_enter (radius : ℝ) (stream : ℕ → ℕ → ℝ × ℝ) (fuel : ℕ)
    (pts : List (ℝ × ℝ)) (mask : List Bool) (hany : mask.any id = true)
    (hdone : (notInside radius (resamplePts (stream 0) 0 pts mask)).any id = false) :
    sampleLoop radius stream (fuel + 1) pts mask =
      some (resamplePts (stream 0) 0 pts mask) := by
  simp only [sampleLoop, hany, if_true]
  exact sampleLoop_done _ _ _ _ _ hdone

theorem any_replicate_false (n : ℕ) : (List.replicate n false).any id = false := by
  simp [List.any_replicate]

theorem any_replicate_true (n : ℕ) (hn : 0 < n) :
    (List.replicate n true).any id = true := by
  simp [List.any_replicate, Nat.pos_iff_ne_zero.mp hn]

/-- Re-drawing slots that already hold the constant the draw returns
changes nothing. -/
theorem resamplePts_const (samp : ℕ → ℝ × ℝ) (c : ℝ × ℝ) (hs : ∀ j, samp j = c) :
    ∀ (i : ℕ) (ms : List Bool) (n : ℕ),
      resamplePts samp i (List.replicate n c) ms = List.replicate n c := by
  intro i ms n
  induction n generalizing i ms with
  | zero => cases ms <;> simp [resamplePts]
  | succ n ih =>
    cases ms with
    | nil => simp [resamplePts, List.replicate_succ]
    | cons m ms =>
      simp only [List.replicate_succ, resamplePts]
      cases m <;> simp [hs, ih]

theorem notInside_zero_radius (n : ℕ) :
    notInside 0 (List.replicate n ((0 : ℝ), (0 : ℝ))) = List.replicate n false := by
  have h0 : ¬ (((0 : ℝ)) ^ 2 + 0 ^ 2 > 0 ^ 2) := by norm_num
  simp [notInside, List.map_replicate, decide_eq_false h0]

/-- With `radius = 0` every draw is forced to `(0, 0)`, so the loop's
first pass already lands every point inside and the loop stops. -/
theorem sampleLoop_zero_radius (n : ℕ) (stream : ℕ → ℕ → ℝ × ℝ) (fuel : ℕ)
    (hs : ∀ k i, stream k i = ((0 : ℝ), (0 : ℝ))) (hfuel : 1 ≤ fuel) :
    sampleLoop 0 stream fuel (List.replicate n ((0 : ℝ), (0 : ℝ)))
      (List.replicate n true) = some (List.replicate n ((0 : ℝ), (0 : ℝ))) := by
  cases fuel with
  | zero => omega
  | succ f =>
    by_cases hn : n = 0
    · subst hn
      exact sampleLoop_done _ _ _ _ _ rfl
    · have hconst := resamplePts_const (stream 0) (0, 0) (hs 0) 0
        (List.replicate n true) n
      have h1 := sampleLoop_enter 0 stream f (List.replicate n (0, 0))
        (List.replicate n true) (any_replicate_true n (Nat.pos_of_ne_zero hn))
        (by rw [hconst, notInside_zero_radius]; exact any_replicate_false n)
      rw [hconst] at h1
      exact h1

/-- C5: for a unit direction and positive radius, every vertex of a
bundle the sampler returns lies on the disk: the component of
`v - center` in the disk's local plane has squared length at most
`radius^2`. -/
theorem C5_vertices_within_radius (num_rays : ℕ) (center direction : Vec3)
    (radius ang_range : ℝ) (phis thetas : List ℝ) (stream : ℕ → ℕ → ℝ × ℝ)
    (fuel : ℕ) (b : RayBundle ℝ) (V : Mat ℝ)
    (hunit : dot3 direction direction = 1) (hr : 0 < radius)
    (hb : solar_disk_bundle num_rays center direction radius ang_range phis thetas
        stream fuel = some (Except.ok b))
    (hV : b._vertices = some V) (i : ℕ) (hi : i < ncols V) :
    sqnorm3 (planeProj direction (sub3 (matCol3 V i) center)) ≤ radius ^ 2 := by
  obtain ⟨pts, hloop, rfl⟩ := solar_disk_bundle_ok _ _ _ _ _ _ _ _ _ _ hb
  have hVe : V = vertsMat direction (diskPerp direction) center pts := by
    simpa using hV.symm
  subst hVe
  rw [ncols_vertsMat] at hi
  rw [matCol3_vertsMat _ _ _ _ _ hi]
  obtain ⟨hlen, hins⟩ := sampleLoop_initial radius num_rays stream fuel pts hloop
  exact le_trans (vertCol_plane_bound direction center _ hunit) (hins i hi)

/-- C6: with `ang_range = 0` every drawn `theta` is 0, so each generated
direction is the central `direction` itself (exactly, over the reals). -/
theorem C6_zero_ang_range_directions (num_rays : ℕ) (center direction : Vec3)
    (radius : ℝ) (phis thetas : List ℝ) (stream : ℕ → ℕ → ℝ × ℝ) (fuel : ℕ)
    (b : RayBundle ℝ) (D : Mat ℝ)
    (hunit : dot3 direction direction = 1)
    (hth : ∀ t ∈ thetas, 0 ≤ t ∧ t ≤ 0)
    (hb : solar_disk_bundle num_rays center direction radius 0 phis thetas stream
        fuel = some (Except.ok b))
    (hD : b._direct = some D) (i : ℕ) (hi : i < ncols D) :
    matCol3 D i = direction := by
  obtain ⟨pts, hloop, rfl⟩ := solar_disk_bundle_ok _ _ _ _ _ _ _ _ _ _ hb
  have hDe : D = dirsMat direction (diskPerp direction) thetas phis num_rays := by
    simpa using hD.symm
  subst hDe
  rw [ncols_dirsMat] at hi
  rw [matCol3_dirsMat _ _ _ _ _ _ hi]
  have hth0 : thetas.getD i 0 = 0 := by
    rcases lt_or_ge i thetas.length with h | h
    · have hmem : thetas.getD i 0 ∈ thetas := by
        rw [List.getD_eq_getElem?_getD, List.getElem?_eq_getElem h]
        simpa using List.getElem_mem h
      have hb2 := hth _ hmem
      linarith [hb2.1, hb2.2]
    · exact List.getD_eq_default thetas 0 h
  rw [hth0]
  exact diskDirection_theta_zero direction (diskPerp direction) _ hunit

/-- C7: with `radius = 0` the uniform draws on `[-0, 0]` are all zero,
the rejection loop accepts them on its first pass, and every vertex is
exactly `center`. -/
theorem C7_zero_radius_vertices (num_rays : ℕ) (center direction : Vec3)
    (ang_range : ℝ) (phis thetas : List ℝ) (stream : ℕ → ℕ → ℝ × ℝ) (fuel : ℕ)
    (hs : ∀ k i, -(0 : ℝ) ≤ (stream k i).1 ∧ (stream k i).1 ≤ 0 ∧
        -(0 : ℝ) ≤ (stream k i).2 ∧ (stream k i).2 ≤ 0)
    (hfuel : 1 ≤ fuel) :
    ∃ b, solar_disk_bundle num_rays center direction 0 ang_range phis thetas stream
        fuel = some (Except.ok b) ∧
      ∀ V, b._vertices = some V → ∀ i, i < ncols V → matCol3 V i = center := by
  have hs0 : ∀ k i, stream k i = ((0 : ℝ), (0 : ℝ)) := by
    intro k i
    have h := hs k i
    have h1 : (stream k i).1 = 0 := le_antisymm h.2.1 (by simpa using h.1)
    have h2 : (stream k i).2 = 0 := le_antisymm h.2.2.2 (by simpa using h.2.2.1)
    exact Prod.ext h1 h2
  have hloop := sampleLoop_zero_radius num_rays stream fuel hs0 hfuel
  refine ⟨_, solar_disk_bundle_eq _ _ _ _ _ _ _ _ _ _ hloop (by simp), ?_⟩
  intro V hV i hi
  have hVe : V = vertsMat direction (diskPerp direction) center
      (List.replicate num_rays (0, 0)) := by
    simpa using hV.symm
  subst hVe
  rw [ncols_vertsMat] at hi
  rw [matCol3_vertsMat _ _ _ _ _ hi]
  have hq : (List.replicate num_rays ((0 : ℝ), (0 : ℝ))).getD i (0, 0) = (0, 0) := by
    rw [List.getD_eq_getElem?_getD, List.getElem?_replicate]
    simp [show i < num_rays by simpa using hi]
  rw [hq]
  obtain ⟨c0, c1, c2⟩ := center
  simp [vertCol, mulVec, dot3, add3]

/-- C8: with `num_rays = 0` the initial mask is empty, the loop stops at
once with no draw consumed, and the sampler returns (at any fuel, any
stream) the bundle whose vertices and directions are 3-by-0 arrays. -/
theorem C8_zero_rays_empty (center direction : Vec3) (radius ang_range : ℝ)
    (phis thetas : List ℝ) (stream : ℕ → ℕ → ℝ × ℝ) (fuel : ℕ) :
    solar_disk_bundle 0 center direction radius ang_range phis thetas stream fuel =
      some (Except.ok ⟨some [[], [], []], some [[], [], []], none⟩) ∧
    RayBundle.get_num_rays
      (⟨some [[], [], []], some [[], [], []], none⟩ : RayBundle ℝ) = Except.ok 0 ∧
    shape2 ([[], [], []] : Mat ℝ) = (3, 0) := by
  refine ⟨?_, by simp [RayBundle.get_num_rays, RayBundle.get_vertices, ncols,
    bind, Except.bind, pure, Except.pure], by simp [shape2, nrows, ncols]⟩
  have hloop : sampleLoop radius stream fuel (List.replicate 0 (0, 0))
      (List.replicate 0 true) = some [] := sampleLoop_done _ _ _ _ _ rfl
  have h := solar_disk_bundle_eq 0 center direction radius ang_range phis thetas
    stream fuel [] hloop rfl
  rw [h]
  simp [vertsMat, dirsMat]

/-- C9: the sampler never touches the energy field, so reading the
energy of any bundle it returns fails until the caller sets it. -/
theorem C9_energy_unset (num_rays : ℕ) (center direction : Vec3)
    (radius ang_range : ℝ) (phis thetas : List ℝ) (stream : ℕ → ℕ → ℝ × ℝ)
    (fuel : ℕ) (b : RayBundle ℝ)
    (hb : solar_disk_bundle num_rays center direction radius ang_range phis thetas
        stream fuel = some (Except.ok b)) :
    RayBundle.get_energy b = Except.error RBError.UninitializedField := by
  obtain ⟨pts, hloop, rfl⟩ := solar_disk_bundle_ok _ _ _ _ _ _ _ _ _ _ hb
  simp [RayBundle.get_energy]

/-! Concrete evaluations of the sampler, used below. -/

/-- One ray generated along the z-axis with `ang_range = 0`: the loop
accepts the centre draw `(0, 0)` at once, the vertex is the origin, the
direction is the z-axis. -/
theorem sdb_eval_unit_z :
    solar_disk_bundle 1 ((0 : ℝ), (0 : ℝ), (0 : ℝ)) ((0 : ℝ), (0 : ℝ), (1 : ℝ)) 1 0
      [0] [0] (fun _ _ => ((0 : ℝ), (0 : ℝ))) 1 =
    some (Except.ok ⟨some [[0], [0], [0]], some [[0], [0], [1]], none⟩) := by
  have h0 : ¬ (((0 : ℝ)) ^ 2 + 0 ^ 2 > 1 ^ 2) := by norm_num
  have hres : resamplePts ((fun _ _ => ((0 : ℝ), (0 : ℝ))) 0) 0
      (List.replicate 1 (0, 0)) (List.replicate 1 true) = [((0 : ℝ), (0 : ℝ))] := by
    simp [resamplePts, List.replicate]
  have hloop := sampleLoop_enter 1 (fun _ _ => ((0 : ℝ), (0 : ℝ))) 0
    (List.replicate 1 (0, 0)) (List.replicate 1 true) (by simp [List.replicate])
    (by rw [hres]; simp [notInside, decide_eq_false h0])
  rw [hres] at hloop
  have h := solar_disk_bundle_eq 1 ((0 : ℝ), (0 : ℝ), (0 : ℝ))
    ((0 : ℝ), (0 : ℝ), (1 : ℝ)) 1 0 [0] [0] (fun _ _ => ((0 : ℝ), (0 : ℝ))) 1
    [((0 : ℝ), (0 : ℝ))] hloop rfl
  rw [h]
  have hperp : diskPerp ((0 : ℝ), (0 : ℝ), (1 : ℝ)) = (1, 0, 0) := by
    simp [diskPerp]
  rw [hperp]
  simp [vertsMat, vertCol, mulVec, dot3, cross, add3, dirsMat, diskDirection,
    general_axis_rotation, Real.cos_zero, Real.sin_zero, List.range_succ]

/-- C4: the code has no zero-direction check.  Called with
`direction = (0, 0, 0)` (here one ray, centre at the origin, radius 1,
`ang_range` 1), the sampler returns a bundle whose direction vectors are
all the zero vector instead of failing. -/
theorem C4_zero_direction_returns_bundle :
    solar_disk_bundle 1 ((0 : ℝ), (0 : ℝ), (0 : ℝ)) ((0 : ℝ), (0 : ℝ), (0 : ℝ)) 1 1
      [0] [0] (fun _ _ => ((0 : ℝ), (0 : ℝ))) 1 =
    some (Except.ok ⟨some [[0], [0], [0]], some [[0], [0], [0]], none⟩) := by
  have h0 : ¬ (((0 : ℝ)) ^ 2 + 0 ^ 2 > 1 ^ 2) := by norm_num
  have hres : resamplePts ((fun _ _ => ((0 : ℝ), (0 : ℝ))) 0) 0
      (List.replicate 1 (0, 0)) (List.replicate 1 true) = [((0 : ℝ), (0 : ℝ))] := by
    simp [resamplePts, List.replicate]
  have hloop := sampleLoop_enter 1 (fun _ _ => ((0 : ℝ), (0 : ℝ))) 0
    (List.replicate 1 (0, 0)) (List.replicate 1 true) (by simp [List.replicate])
    (by rw [hres]; simp [notInside, decide_eq_false h0])
  rw [hres] at hloop
  have h := solar_disk_bundle_eq 1 ((0 : ℝ), (0 : ℝ), (0 : ℝ))
    ((0 : ℝ), (0 : ℝ), (0 : ℝ)) 1 1 [0] [0] (fun _ _ => ((0 : ℝ), (0 : ℝ))) 1
    [((0 : ℝ), (0 : ℝ))] hloop rfl
  rw [h]
  have hperp : diskPerp ((0 : ℝ), (0 : ℝ), (0 : ℝ)) = (1, 0, 0) := by
    simp [diskPerp]
  rw [hperp]
  simp [vertsMat, vertCol, mulVec, dot3, cross, add3, dirsMat, diskDirection,
    List.range_succ]

/-- Witness for C5: the single vertex of the one-ray z-axis call lies
within the unit disk. -/
theorem C5_vertices_within_radius_witness :
    sqnorm3 (planeProj ((0 : ℝ), (0 : ℝ), (1 : ℝ))
      (sub3 (matCol3 [[0], [0], [0]] 0) ((0 : ℝ), (0 : ℝ), (0 : ℝ)))) ≤ (1 : ℝ) ^ 2 :=
  C5_vertices_within_radius 1 ((0 : ℝ), (0 : ℝ), (0 : ℝ)) ((0 : ℝ), (0 : ℝ), (1 : ℝ))
    1 0 [0] [0] (fun _ _ => ((0 : ℝ), (0 : ℝ))) 1
    ⟨some [[0], [0], [0]], some [[0], [0], [1]], none⟩ [[0], [0], [0]]
    (by norm_num [dot3]) (by norm_num) sdb_eval_unit_z rfl 0 (by simp [ncols])

/-- Witness for C6: the single direction of the one-ray z-axis call with
`ang_range = 0` is the z-axis itself. -/
theorem C6_zero_ang_range_directions_witness :
    matCol3 [[0], [0], [1]] 0 = ((0 : ℝ), (0 : ℝ), (1 : ℝ)) :=
  C6_zero_ang_range_directions 1 ((0 : ℝ), (0 : ℝ), (0 : ℝ))
    ((0 : ℝ), (0 : ℝ), (1 : ℝ)) 1 [0] [0] (fun _ _ => ((0 : ℝ), (0 : ℝ))) 1
    ⟨some [[0], [0], [0]], some [[0], [0], [1]], none⟩ [[0], [0], [1]]
    (by norm_num [dot3]) (by norm_num) sdb_eval_unit_z rfl 0 (by simp [ncols])

/-- Witness for C7 at one ray, centre `(1, 2, 3)`, radius 0. -/
theorem C7_zero_radius_vertices_witness :
    ∃ b, solar_disk_bundle 1 ((1 : ℝ), (2 : ℝ), (3 : ℝ)) ((0 : ℝ), (0 : ℝ), (1 : ℝ))
        0 0 [0] [0] (fun _ _ => ((0 : ℝ), (0 : ℝ))) 1 = some (Except.ok b) ∧
      ∀ V, b._vertices = some V → ∀ i, i < ncols V →
        matCol3 V i = ((1 : ℝ), (2 : ℝ), (3 : ℝ)) :=
  C7_zero_radius_vertices 1 ((1 : ℝ), (2 : ℝ), (3 : ℝ)) ((0 : ℝ), (0 : ℝ), (1 : ℝ))
    0 [0] [0] (fun _ _ => ((0 : ℝ), (0 : ℝ))) 1
    (by intro k i; norm_num) (le_refl 1)

/-- Witness for C9 at the zero-ray call. -/
theorem C9_energy_unset_witness :
    RayBundle.get_energy
      (⟨some [[], [], []], some [[], [], []], none⟩ : RayBundle ℝ) =
      Except.error RBError.UninitializedField :=
  C9_energy_unset 0 ((0 : ℝ), (0 : ℝ), (0 : ℝ)) ((0 : ℝ), (0 : ℝ), (1 : ℝ)) 1 0 [] []
    (fun _ _ => ((0 : ℝ), (0 : ℝ))) 0 ⟨some [[], [], []], some [[], [], []], none⟩
    (by
      have h := solar_disk_bundle_eq 0 ((0 : ℝ), (0 : ℝ), (0 : ℝ))
        ((0 : ℝ), (0 : ℝ), (1 : ℝ)) 1 0 [] [] (fun _ _ => ((0 : ℝ), (0 : ℝ))) 0 []
        (sampleLoop_done _ _ _ _ _ rfl) rfl
      rw [h]
      simp [vertsMat, dirsMat])

end Tracer
